import Mathlib

/-!
Verification of the BMS regressor orchestration layer
(`src/autora/theorist/bms/regressor.py`).

The file shallowly embeds the module: numeric data is modelled by `ℚ`
(the claims under study concern control flow, naming, table updates and
string manipulation, not float rounding), Python `dict`s by association
lists with Python's insert-or-overwrite-in-place update semantics, and
Python exceptions by `Except` / an explicit error field.  The external
search engine (`Parallel`, `Tree`, `utils.run`, `get_priors`) lives in
the same package but outside the analysed source; it is modelled from
the spec's interface section (each such definition is marked
`Modelled from the spec:`).
-/

namespace BMS

/-! ### Python dictionaries as association lists

A Python `dict` keeps one entry per key, preserving insertion order;
`d[k] = v` overwrites the value in place when `k` is present and appends
a fresh entry otherwise.  Every table the module builds has unique keys,
so overwrite-first-occurrence is exactly Python's semantics. -/

def dictHasKey {κ α : Type} [DecidableEq κ] : List (κ × α) → κ → Bool
  | [], _ => false
  | p :: rest, k => decide (p.1 = k) || dictHasKey rest k

def dictUpdate {κ α : Type} [DecidableEq κ] : List (κ × α) → κ → α → List (κ × α)
  | [], k, v => [(k, v)]
  | p :: rest, k, v => if p.1 = k then (k, v) :: rest else p :: dictUpdate rest k v

def dictGet {κ α : Type} [DecidableEq κ] : List (κ × α) → κ → Option α
  | [], _ => none
  | p :: rest, k => if p.1 = k then some p.2 else dictGet rest k

/-- Number of entries of `d` whose key is `k` (a real `dict` always has 0 or 1). -/
def countKey {κ α : Type} [DecidableEq κ] : List (κ × α) → κ → Nat
  | [], _ => 0
  | p :: rest, k => (if p.1 = k then 1 else 0) + countKey rest k

theorem dictGet_update_self {κ α : Type} [DecidableEq κ]
    (d : List (κ × α)) (k : κ) (v : α) :
    dictGet (dictUpdate d k v) k = some v := by
  induction d with
  | nil => simp [dictUpdate, dictGet]
  | cons p rest ih =>
    by_cases hp : p.1 = k
    · simp [dictUpdate, dictGet, hp]
    · simp [dictUpdate, dictGet, hp, ih]

theorem dictGet_update_other {κ α : Type} [DecidableEq κ]
    (d : List (κ × α)) (k k' : κ) (v : α) (hne : k' ≠ k) :
    dictGet (dictUpdate d k v) k' = dictGet d k' := by
  have hne' : ¬ (k = k') := fun h => hne h.symm
  induction d with
  | nil => simp [dictUpdate, dictGet, hne']
  | cons p rest ih =>
    by_cases hp : p.1 = k
    · simp [dictUpdate, dictGet, hp, hne', ih]
    · by_cases hp' : p.1 = k'
      · simp [dictUpdate, dictGet, hp, hp', hne]
      · simp [dictUpdate, dictGet, hp, hp', ih]

theorem countKey_update_self {κ α : Type} [DecidableEq κ]
    (d : List (κ × α)) (k : κ) (v : α) (h1 : countKey d k ≤ 1) :
    countKey (dictUpdate d k v) k = 1 := by
  induction d with
  | nil => simp [dictUpdate, countKey]
  | cons p rest ih =>
    by_cases hp : p.1 = k
    · have hrest : countKey rest k = 0 := by
        simp [countKey, hp] at h1
        omega
      simp [dictUpdate, countKey, hp, hrest]
    · have h1' : countKey rest k ≤ 1 := by
        simpa [countKey, hp] using h1
      simp [dictUpdate, countKey, hp, ih h1']

theorem countKey_update_other {κ α : Type} [DecidableEq κ]
    (d : List (κ × α)) (k k' : κ) (v : α) (hne : k' ≠ k) :
    countKey (dictUpdate d k v) k' = countKey d k' := by
  have hne' : ¬ (k = k') := fun h => hne h.symm
  induction d with
  | nil => simp [dictUpdate, countKey, hne']
  | cons p rest ih =>
    by_cases hp : p.1 = k
    · simp [dictUpdate, countKey, hp, hne']
    · simp [dictUpdate, countKey, hp, ih]

/-! ### Errors, operators and tabular data -/

/-- Python exceptions the module can surface: sklearn validation errors and
pandas shape errors are `ValueError`s; `check_is_fitted` raises
`NotFittedError`; attribute/index/key access failures keep their Python
class. -/
inductive BMSError : Type
  | valueError (msg : String)
  | notFittedError
  | attributeError (msg : String)
  | indexError
  | keyError (k : String)
deriving DecidableEq, Repr

/-- A named Python callable, as consumed by `add_primitive`: `name` models
`op.__name__` and `arity` models `len(signature(op).parameters)`.  Two
distinct callables may share a `__name__` while disagreeing on arity. -/
structure Op : Type where
  name : String
  arity : Nat
deriving DecidableEq, Repr

/-- A Python value that may be passed as `root`: either a string or a named
callable.  `root not in self.ops.keys()` compares this value against the
string keys of the operator table, so a callable is never a member. -/
inductive PyVal : Type
  | str (s : String)
  | op (o : Op)
deriving DecidableEq, Repr

/-- A labelled data frame: `columns` are the labels, `rows` the numeric data
(one inner list per sample). -/
structure DataFrame : Type where
  columns : List String
  rows : List (List ℚ)
deriving DecidableEq, Repr

/-- The `X` argument of `fit`/`predict`: either a labelled frame (it has a
`columns` attribute) or a plain 2-D numeric array (it does not). -/
inductive XInput : Type
  | frame (df : DataFrame)
  | arr (rows : List (List ℚ))
deriving DecidableEq, Repr

def rowsOf : XInput → List (List ℚ)
  | .frame df => df.rows
  | .arr rows => rows

/-- `X.shape[1]`: the number of feature columns. -/
def widthOf : XInput → Nat
  | .frame df => df.columns.length
  | .arr rows => (rows.headD []).length

/-- Modelled from the spec: the engine's `Tree` model is opaque to this core;
only the interface of §6 is used — `predict(dataframe) → numeric column`,
`__repr__`/`latex() → string`, `parameters → names`, and
`par_values["d0"] → {name → value}`.  Strings on the repr side are lists of
characters so that `str.replace` can be reasoned about. -/
structure Tree : Type where
  predictFn : DataFrame → List ℚ
  reprS : List Char
  parameters : List (List Char)
  parValuesD0 : List (List Char × ℚ)
  latexS : List Char

/-- Modelled from the spec: the default-constructed `Tree()` placeholder that
`__init__` stores before any fit; its contents are irrelevant to the claims. -/
def defaultTree : Tree :=
  { predictFn := fun df => df.rows.map (fun _ => 0)
    reprS := ['a']
    parameters := [['a']]
    parValuesD0 := [(['a'], 0)]
    latexS := ['a'] }

abbrev PriorTable := List (String × ℚ)
abbrev OpsTable := List (String × Nat)
abbrev CustomTable := List (String × Op)

/-! ### The shared prior-table heap

`BMSRegressor.__init__` has `prior_par: dict = PRIORS` — the default value is
the module-level `PRIORS` dict, evaluated once at class-definition time, so
every default-constructed estimator aliases the same mutable dict.  The heap
models Python object identity for prior dicts: an estimator stores a
reference (index) and `add_primitive` mutates through it.  Cell `0` is the
module-level `PRIORS` object. -/

abbrev World := List PriorTable

def heapGet (w : World) (r : Nat) : PriorTable := (w.getD r [])

def heapSet (w : World) (r : Nat) (t : PriorTable) : World := w.set r t

/-- Modelled from the spec: the built-in prior table returned by
`get_priors()` (its exact contents are external; a representative sample). -/
def PRIORS : PriorTable := [("Nopi_sin", 3), ("Nopi_exp", 4), ("Nopi_+", 2)]

/-- Modelled from the spec: the built-in operator/arity table returned as the
second component of `get_priors()`; a fresh copy per call. -/
def BUILTIN_OPS : OpsTable := [("sin", 1), ("exp", 1), ("+", 2)]

/-- `TEMPERATURES = [1.0] + [1.04**k for k in range(1, 20)]`. -/
def TEMPERATURES : List ℚ :=
  [1] ++ (List.range 19).map (fun k => (104 / 100 : ℚ) ^ (k + 1))

/-! ### The external engine (Search Session Builder and Fit Driver) -/

/-- The keyword arguments of `Parallel(...)` as built by `fit` (line 123);
`random_state` is dropped as it does not influence any claim's property. -/
structure SessionArgs : Type where
  Ts : List ℚ
  variables_ : List String
  parameters : List String
  x : DataFrame
  y : List ℚ
  prior_par : PriorTable
  ops : OpsTable
  custom_ops : CustomTable
  root : Option PyVal

/-- A `Parallel(Ts=ts)` session as constructed by `__init__` (data-free). -/
def emptySession (ts : List ℚ) : SessionArgs :=
  { Ts := ts, variables_ := [], parameters := [], x := ⟨[], []⟩, y := []
    prior_par := [], ops := [], custom_ops := [], root := none }

/-- Modelled from the spec: the result of `utils.run` plus the final
per-temperature population `pms.trees.values()` read immediately after the
run (§6: an ordered mapping temperature → model). -/
structure RunResult : Type where
  best : Tree
  loss : ℚ
  cache : List ℚ
  population : List Tree

/-- Modelled from the spec: the opaque engine — `Parallel(...)` construction
(which may raise) and the `utils.run` driver (which may raise; no recovery).
Quantifying theorems over `Engine` keeps the engine fully external. -/
structure Engine : Type where
  build : SessionArgs → Except BMSError Unit
  run : SessionArgs → Nat → Except BMSError RunResult

/-! ### The estimator -/

/-- The attributes of a `BMSRegressor` instance.  `prior_par` is a reference
into the prior-table heap (see above); `loss_ = none` models the initial
`np.inf`; every field is assigned by `__init__`, which is what defeats
`check_is_fitted`. -/
structure BMSRegressor : Type where
  ts : List ℚ
  prior_par : Nat
  epochs : Nat
  pms : SessionArgs
  ops : OpsTable
  custom_ops : CustomTable
  X_ : Option DataFrame
  y_ : Option (List ℚ)
  model_ : Tree
  temp_ : ℚ
  models_ : List Tree
  loss_ : Option ℚ
  cache_ : List ℚ
  -- the source's `variables` attribute (`variables` is reserved in Lean)
  variables_ : List String

/-- `BMSRegressor.__init__(prior_par, ts, epochs)`: `priorRef` is the identity
of the dict passed as `prior_par` (callers passing the default use cell 0,
the module-level `PRIORS`). -/
def initBMS (priorRef : Nat) (ts : List ℚ) (epochs : Nat) : BMSRegressor :=
  { ts := ts
    prior_par := priorRef
    epochs := epochs
    pms := emptySession ts
    ops := BUILTIN_OPS
    custom_ops := []
    X_ := none
    y_ := none
    model_ := defaultTree
    temp_ := 0
    models_ := [defaultTree]
    loss_ := none
    cache_ := []
    variables_ := [] }

/-- `BMSRegressor()` with all defaults: shares the module-level `PRIORS`. -/
def initDefault : BMSRegressor := initBMS 0 TEMPERATURES 1500

/-- The attributes `__init__` assigns on every instance; `check_is_fitted`
only tests attribute presence, so membership here decides it. -/
def instanceAttrs : List String :=
  ["ts", "prior_par", "epochs", "pms", "ops", "custom_ops", "X_", "y_",
   "model_", "temp_", "models_", "loss_", "cache_", "variables"]

/-- sklearn's `check_is_fitted(estimator, attributes=...)`: passes iff every
listed attribute is present on the instance.  All attributes this module ever
passes are assigned in `__init__`, hence always present. -/
def check_is_fitted (attrs : List String) : Except BMSError Unit :=
  if attrs.all (fun a => instanceAttrs.contains a) then .ok ()
  else .error .notFittedError

/-- sklearn's `check_X_y(X, y)`: X must be a rectangular 2-D numeric array
with at least one sample and one feature, and `y` a 1-D array with matching
sample count; on success both are returned as plain arrays. -/
def check_X_y (X : XInput) (y : List ℚ) :
    Except BMSError (List (List ℚ) × List ℚ) :=
  if (rowsOf X).length = 0 then .error (.valueError "0 sample(s)")
  else if ¬ ((rowsOf X).all (fun r => r.length = widthOf X)) then
    .error (.valueError "inconsistent shapes")
  else if widthOf X = 0 then .error (.valueError "0 feature(s)")
  else if y.length ≠ (rowsOf X).length then
    .error (.valueError "inconsistent numbers of samples")
  else .ok (rowsOf X, y)

/-- sklearn's `check_array(X)`: same shape checks on `X` alone. -/
def check_array (X : XInput) : Except BMSError (List (List ℚ)) :=
  if (rowsOf X).length = 0 then .error (.valueError "0 sample(s)")
  else if ¬ ((rowsOf X).all (fun r => r.length = widthOf X)) then
    .error (.valueError "inconsistent shapes")
  else if widthOf X = 0 then .error (.valueError "0 feature(s)")
  else .ok (rowsOf X)

/-- `pd.DataFrame(arr, columns=cols)`: raises a `ValueError` when the column
count of the data does not match the number of labels. -/
def mkDF (rows : List (List ℚ)) (cols : List String) :
    Except BMSError DataFrame :=
  if rows.all (fun r => r.length = cols.length) then .ok ⟨cols, rows⟩
  else .error (.valueError "Shape of passed values does not match columns")

/-- `np.expand_dims(v, axis=1)`: one singleton row per prediction. -/
def expandDims (v : List ℚ) : List (List ℚ) := v.map (fun q => [q])

/-! ### Registration (`add_primitive`) and `fit` -/

/-- `add_primitive(op)` (lines 208–211): updates the custom-operator dict,
the operator/arity dict, and — through the shared reference — the prior
dict with `"Nopi_" + name → 1`. -/
def add_primitive (w : World) (st : BMSRegressor) (op : Op) :
    World × BMSRegressor :=
  (heapSet w st.prior_par
      (dictUpdate (heapGet w st.prior_par) ("Nopi_" ++ op.name) 1),
   { st with
      custom_ops := dictUpdate st.custom_ops op.name op
      ops := dictUpdate st.ops op.name op.arity })

/-- The `for op in custom_ops: self.add_primitive(op)` loop of `fit`. -/
def addPrimList (w : World) (st : BMSRegressor) : List Op → World × BMSRegressor
  | [] => (w, st)
  | o :: r =>
    let p := add_primitive w st o
    addPrimList p.1 p.2 r

/-- Python membership `r in ops.keys()`: only a string can equal a string
key; a callable never does. -/
def keyMem (r : PyVal) (ops : OpsTable) : Bool :=
  match r with
  | .str s => dictHasKey ops s
  | .op _ => false

/-- `add_primitive` applied to an arbitrary value (the `root` path):
`op.__name__` on a string raises `AttributeError`. -/
def add_primitive_v (w : World) (st : BMSRegressor) (r : PyVal) :
    World × BMSRegressor × Option BMSError :=
  match r with
  | .op o =>
    let p := add_primitive w st o
    (p.1, p.2, none)
  | .str _ =>
    (w, st, some (.attributeError "str object has no attribute"))

/-- Lines 118–122 of `fit`: merge `custom_ops`, then register `root` when
`root is not None and root not in self.ops.keys()`. -/
def fitRegPhase (w : World) (st : BMSRegressor) (root : Option PyVal)
    (cops : Option (List Op)) : World × BMSRegressor × Option BMSError :=
  let p := addPrimList w st (cops.getD [])
  match root with
  | none => (p.1, p.2, none)
  | some r =>
    if keyMem r p.2.ops then (p.1, p.2, none)
    else add_primitive_v p.1 p.2 r

/-- Lines 106–110 of `fit`: column labels verbatim when present, else
`"X%d" % i` for `i in range(X.shape[1])`. -/
def resolveNames : XInput → List String
  | .frame df => df.columns
  | .arr rows => (List.range (widthOf (XInput.arr rows))).map (fun i => "X" ++ toString i)

/-- `["a%d" % i for i in range(num_param)]`. -/
def paramNames (num_param : Nat) : List String :=
  (List.range num_param).map (fun i => "a" ++ toString i)

/-- `BMSRegressor.fit` (lines 82–140).  Mutation order is the source's:
`self.variables` is assigned before validation; the registry is mutated
before the session is built; `pms` is replaced once `Parallel(...)`
succeeds; `model_`, `loss_`, `cache_`, `models_`, `X_`, `y_` are assigned
only after a successful run.  The returned error (if any) is the raised
exception, alongside the mutated-so-far state. -/
def fit (eng : Engine) (w : World) (st : BMSRegressor) (X : XInput)
    (y : List ℚ) (num_param : Nat) (root : Option PyVal)
    (cops : Option (List Op)) : World × BMSRegressor × Option BMSError :=
  let st0 := { st with variables_ := resolveNames X }
  match check_X_y X y with
  | .error e => (w, st0, some e)
  | .ok (rows, y') =>
    let df : DataFrame := ⟨st0.variables_, rows⟩
    match fitRegPhase w st0 root cops with
    | (w1, st1, some e) => (w1, st1, some e)
    | (w1, st1, none) =>
      let args : SessionArgs :=
        { Ts := st1.ts
          variables_ := st1.variables_
          parameters := paramNames num_param
          x := df
          y := y'
          prior_par := heapGet w1 st1.prior_par
          ops := st1.ops
          custom_ops := st1.custom_ops
          root := root }
      match eng.build args with
      | .error e => (w1, st1, some e)
      | .ok _ =>
        let st2 := { st1 with pms := args }
        match eng.run args st2.epochs with
        | .error e => (w1, st2, some e)
        | .ok res =>
          (w1,
           { st2 with
              model_ := res.best
              loss_ := some res.loss
              cache_ := res.cache
              models_ := res.population
              X_ := some df
              y_ := some y' },
           none)

/-! ### `predict`, `get_models`, `latex` -/

/-- `BMSRegressor.predict` (lines 142–165): `check_array`, then
`check_is_fitted(self, attributes=["model_"])`, then re-materialize the
stored variable names onto the data and delegate to the best model. -/
def predict (st : BMSRegressor) (X : XInput) :
    Except BMSError (List (List ℚ)) := do
  let rows ← check_array X
  let _ ← check_is_fitted ["model_"]
  let df ← mkDF rows st.variables_
  .ok (expandDims (st.model_.predictFn df))

/-- The body of the `get_models` loop: for each tree, default-construct a
facade, set its model, its temperature `self.ts[idx]` (IndexError when out
of range), and its variables re-derived from `self.X_` (AttributeError when
`X_` is still `None`, since `None` has neither `columns` nor `shape`). -/
def goGetModels (st : BMSRegressor) : Nat → List Tree →
    Except BMSError (List BMSRegressor)
  | _, [] => .ok []
  | idx, t :: rest =>
    match st.ts.get? idx with
    | none => .error .indexError
    | some T =>
      match st.X_ with
      | none => .error (.attributeError "NoneType object has no attribute")
      | some df => do
        let l ← goGetModels st (idx + 1) rest
        .ok ({ initDefault with
                model_ := t, temp_ := T, variables_ := df.columns } :: l)

/-- `BMSRegressor.get_models` (lines 191–203). -/
def get_models (st : BMSRegressor) : Except BMSError (List BMSRegressor) :=
  goGetModels st 0 st.models_

/-- `BMSRegressor.latex` (lines 205–206): no fitted-state guard at this
layer; it directly renders the stored model. -/
def latex (st : BMSRegressor) : Except BMSError (List Char) :=
  .ok st.model_.latexS

/-! ### Heap lemmas -/

theorem heapGet_heapSet_self (w : World) (r : Nat) (t : PriorTable)
    (hr : r < w.length) : heapGet (heapSet w r t) r = t := by
  induction w generalizing r with
  | nil => simp at hr
  | cons c rest ih =>
    cases r with
    | zero => simp [heapGet, heapSet]
    | succ n =>
      have : n < rest.length := by simpa using hr
      simpa [heapGet, heapSet] using ih n this

theorem heapGet_heapSet_ne (w : World) (r r' : Nat) (t : PriorTable)
    (h : r' ≠ r) : heapGet (heapSet w r t) r' = heapGet w r' := by
  induction w generalizing r r' with
  | nil => simp [heapGet, heapSet]
  | cons c rest ih =>
    cases r with
    | zero =>
      cases r' with
      | zero => exact absurd rfl h
      | succ m => simp [heapGet, heapSet]
    | succ n =>
      cases r' with
      | zero => simp [heapGet, heapSet]
      | succ m =>
        have : m ≠ n := fun hmn => h (by simp [hmn])
        simpa [heapGet, heapSet] using ih n m this

/-! ### Claim theorems -/

/-- C3: `add_primitive` inserts exactly the triple `{name → arity}`,
`{name → callable}`, `{"Nopi_" + name → 1.0}` into the operator, custom
and prior tables, leaves every other entry (and every other heap cell and
estimator field) unchanged, and a second registration under the same name
leaves exactly one entry per table with the last registration winning. -/
theorem c3_add_primitive_registry (w : World) (st : BMSRegressor) (op op2 : Op)
    (hname : op2.name = op.name)
    (hr : st.prior_par < w.length)
    (h1 : countKey st.ops op.name ≤ 1)
    (h2 : countKey st.custom_ops op.name ≤ 1)
    (h3 : countKey (heapGet w st.prior_par) ("Nopi_" ++ op.name) ≤ 1) :
    dictGet (add_primitive w st op).2.ops op.name = some op.arity ∧
    dictGet (add_primitive w st op).2.custom_ops op.name = some op ∧
    dictGet (heapGet (add_primitive w st op).1 st.prior_par)
      ("Nopi_" ++ op.name) = some 1 ∧
    (∀ k, k ≠ op.name →
      dictGet (add_primitive w st op).2.ops k = dictGet st.ops k) ∧
    (∀ k, k ≠ op.name →
      dictGet (add_primitive w st op).2.custom_ops k = dictGet st.custom_ops k) ∧
    (∀ k, k ≠ "Nopi_" ++ op.name →
      dictGet (heapGet (add_primitive w st op).1 st.prior_par) k =
        dictGet (heapGet w st.prior_par) k) ∧
    (∀ r, r ≠ st.prior_par →
      heapGet (add_primitive w st op).1 r = heapGet w r) ∧
    (add_primitive w st op).2.variables_ = st.variables_ ∧
    (add_primitive w st op).2.model_ = st.model_ ∧
    (add_primitive w st op).2.models_ = st.models_ ∧
    (add_primitive w st op).2.ts = st.ts ∧
    (add_primitive w st op).2.prior_par = st.prior_par ∧
    countKey
      (add_primitive (add_primitive w st op).1 (add_primitive w st op).2 op2).2.ops
      op.name = 1 ∧
    dictGet
      (add_primitive (add_primitive w st op).1 (add_primitive w st op).2 op2).2.ops
      op.name = some op2.arity ∧
    countKey
      (add_primitive (add_primitive w st op).1 (add_primitive w st op).2 op2).2.custom_ops
      op.name = 1 ∧
    dictGet
      (add_primitive (add_primitive w st op).1 (add_primitive w st op).2 op2).2.custom_ops
      op.name = some op2 ∧
    countKey
      (heapGet
        (add_primitive (add_primitive w st op).1 (add_primitive w st op).2 op2).1
        st.prior_par)
      ("Nopi_" ++ op.name) = 1 := by
  have hget : heapGet (add_primitive w st op).1 st.prior_par =
      dictUpdate (heapGet w st.prior_par) ("Nopi_" ++ op.name) 1 :=
    heapGet_heapSet_self _ _ _ hr
  have hr' : st.prior_par < ((add_primitive w st op).1).length := by
    simpa [add_primitive, heapSet] using hr
  refine ⟨dictGet_update_self _ _ _, dictGet_update_self _ _ _, ?_, ?_, ?_, ?_,
    ?_, rfl, rfl, rfl, rfl, rfl, ?_, ?_, ?_, ?_, ?_⟩
  · rw [hget]; exact dictGet_update_self _ _ _
  · intro k hk
    exact dictGet_update_other _ _ _ _ hk
  · intro k hk
    exact dictGet_update_other _ _ _ _ hk
  · intro k hk
    rw [hget]
    exact dictGet_update_other _ _ _ _ hk
  · intro r hrr
    exact heapGet_heapSet_ne _ _ _ _ hrr
  · simp only [add_primitive, hname]
    exact countKey_update_self _ _ _ (le_of_eq (countKey_update_self _ _ _ h1))
  · simp only [add_primitive, hname]
    exact dictGet_update_self _ _ _
  · simp only [add_primitive, hname]
    exact countKey_update_self _ _ _ (le_of_eq (countKey_update_self _ _ _ h2))
  · simp only [add_primitive, hname]
    exact dictGet_update_self _ _ _
  · have hget2 : heapGet
        (add_primitive (add_primitive w st op).1 (add_primitive w st op).2 op2).1
        st.prior_par =
        dictUpdate (heapGet (add_primitive w st op).1 st.prior_par)
          ("Nopi_" ++ op2.name) 1 := by
      have : (add_primitive w st op).2.prior_par = st.prior_par := rfl
      simpa [this] using
        heapGet_heapSet_self ((add_primitive w st op).1) st.prior_par _ hr'
    rw [hget2, hname, hget]
    exact countKey_update_self _ _ _ (le_of_eq (countKey_update_self _ _ _ h3))

/-- Witness for C3 at a concrete registration. -/
theorem c3_add_primitive_registry_witness :
    dictGet (add_primitive [PRIORS] initDefault ⟨"myfun", 1⟩).2.ops "myfun" =
      some 1 ∧
    dictGet
      (add_primitive (add_primitive [PRIORS] initDefault ⟨"myfun", 1⟩).1
        (add_primitive [PRIORS] initDefault ⟨"myfun", 1⟩).2 ⟨"myfun", 2⟩).2.ops
      "myfun" = some 2 := by
  have h := c3_add_primitive_registry [PRIORS] initDefault ⟨"myfun", 1⟩
    ⟨"myfun", 2⟩ rfl (by decide) (by decide) (by decide) (by decide)
  exact ⟨h.1, h.2.2.2.2.2.2.2.2.2.2.2.2.2.1⟩

/-- C10: in `predict`, the `check_array` validation runs before the
fitted-state check, so for every estimator (fitted or not) a malformed `X`
yields the validation (`ValueError`) from the array check and never a
not-fitted error. -/
theorem check_array_error_is_valueError (X : XInput) (e : BMSError)
    (h : check_array X = .error e) : ∃ m, e = .valueError m := by
  unfold check_array at h
  split at h
  · exact ⟨_, ((Except.error.injEq _ _).mp h).symm⟩
  · split at h
    · exact ⟨_, ((Except.error.injEq _ _).mp h).symm⟩
    · split at h
      · exact ⟨_, ((Except.error.injEq _ _).mp h).symm⟩
      · exact absurd h (by simp)

theorem c10_predict_validates_before_fitted_check (st : BMSRegressor)
    (X : XInput) (e : BMSError) (h : check_array X = .error e) :
    predict st X = .error e ∧ (∃ m, e = .valueError m) ∧
    e ≠ .notFittedError := by
  obtain ⟨m, hm⟩ := check_array_error_is_valueError X e h
  refine ⟨?_, ⟨m, hm⟩, by simp [hm]⟩
  unfold predict
  rw [h]
  rfl

/-- Witness for C10: an empty array (zero samples) on the unfit default
estimator. -/
theorem c10_predict_validates_before_fitted_check_witness :
    predict initDefault (.arr []) = .error (.valueError "0 sample(s)") ∧
    (∃ m, (BMSError.valueError "0 sample(s)") = .valueError m) ∧
    (BMSError.valueError "0 sample(s)") ≠ .notFittedError :=
  c10_predict_validates_before_fitted_check initDefault (.arr []) _ rfl

/-- C1 (code bug): `__init__` pre-assigns `model_`, `loss_` and `cache_`, so
sklearn's attribute-presence `check_is_fitted` never raises; on the unfit
default estimator `predict` proceeds past the guard and fails with the
pandas column-count `ValueError` instead of a not-fitted error,
`get_models` fails with an `AttributeError` (`self.X_` is `None`), and
`latex` simply succeeds on the placeholder tree. -/
theorem c1_unfit_guard_ineffective :
    check_is_fitted ["model_"] = .ok () ∧
    check_is_fitted ["model_", "loss_", "cache_"] = .ok () ∧
    predict initDefault (.arr [[1]]) =
      .error (.valueError "Shape of passed values does not match columns") ∧
    predict initDefault (.arr [[1]]) ≠ .error .notFittedError ∧
    get_models initDefault =
      .error (.attributeError "NoneType object has no attribute") ∧
    latex initDefault = .ok defaultTree.latexS := by
  have hp : predict initDefault (.arr [[1]]) =
      .error (.valueError "Shape of passed values does not match columns") := rfl
  refine ⟨rfl, rfl, hp, ?_, rfl, rfl⟩
  rw [hp]
  intro hc
  exact absurd ((Except.error.injEq _ _).mp hc) (by simp)

/-- C8 counterexample: two default-constructed estimators share the
module-level `PRIORS` dict (`prior_par: dict = PRIORS` binds the same object
for every default construction), so `add_primitive` on estimator A is
visible in estimator B's prior table, contradicting sole ownership. -/
theorem c8_shared_default_prior_counterexample :
    initDefault.prior_par = 0 ∧
    dictGet (heapGet [PRIORS] initDefault.prior_par) "Nopi_myfun" = none ∧
    dictGet
      (heapGet (add_primitive [PRIORS] initDefault ⟨"myfun", 1⟩).1
        initDefault.prior_par)
      "Nopi_myfun" = some 1 := by
  refine ⟨rfl, by decide, by decide⟩

/-- C8 amended: `add_primitive` on estimator A mutates only A's own record
and the prior dict A references; estimators holding a *different* prior
dict are untouched, while any estimator sharing A's dict (in particular
every default-constructed one) observes the new `"Nopi_"` entry. -/
theorem c8_prior_isolation_amended (w : World) (stA stB : BMSRegressor)
    (op : Op) (hne : stB.prior_par ≠ stA.prior_par) :
    heapGet (add_primitive w stA op).1 stB.prior_par =
      heapGet w stB.prior_par ∧
    (∀ r, r ≠ stA.prior_par →
      heapGet (add_primitive w stA op).1 r = heapGet w r) ∧
    (add_primitive w stA op).2.ops = dictUpdate stA.ops op.name op.arity ∧
    (add_primitive w stA op).2.custom_ops =
      dictUpdate stA.custom_ops op.name op ∧
    (∀ stC : BMSRegressor, stC.prior_par = stA.prior_par →
      stA.prior_par < w.length →
      dictGet (heapGet (add_primitive w stA op).1 stC.prior_par)
        ("Nopi_" ++ op.name) = some 1) := by
  refine ⟨heapGet_heapSet_ne _ _ _ _ hne, ?_, rfl, rfl, ?_⟩
  · intro r hrr
    exact heapGet_heapSet_ne _ _ _ _ hrr
  · intro stC hC hlen
    have hg : heapGet (add_primitive w stA op).1 stA.prior_par =
        dictUpdate (heapGet w stA.prior_par) ("Nopi_" ++ op.name) 1 :=
      heapGet_heapSet_self _ _ _ hlen
    rw [hC, hg]
    exact dictGet_update_self _ _ _

/-- Witness for C8 amended: a default-constructed estimator and one built
with its own fresh prior dict. -/
theorem c8_prior_isolation_amended_witness :
    heapGet
      (add_primitive [PRIORS, []] initDefault ⟨"myfun", 1⟩).1
      (initBMS 1 TEMPERATURES 1500).prior_par =
      heapGet [PRIORS, []] (initBMS 1 TEMPERATURES 1500).prior_par :=
  (c8_prior_isolation_amended [PRIORS, []] initDefault
    (initBMS 1 TEMPERATURES 1500) ⟨"myfun", 1⟩ (by decide)).1

/-! ### Frame lemmas for `fit`'s registration phase -/

theorem addPrimList_fields (l : List Op) : ∀ (w : World) (st : BMSRegressor),
    (addPrimList w st l).2.variables_ = st.variables_ ∧
    (addPrimList w st l).2.model_ = st.model_ ∧
    (addPrimList w st l).2.models_ = st.models_ ∧
    (addPrimList w st l).2.loss_ = st.loss_ ∧
    (addPrimList w st l).2.cache_ = st.cache_ ∧
    (addPrimList w st l).2.X_ = st.X_ ∧
    (addPrimList w st l).2.y_ = st.y_ ∧
    (addPrimList w st l).2.pms = st.pms ∧
    (addPrimList w st l).2.ts = st.ts ∧
    (addPrimList w st l).2.epochs = st.epochs := by
  induction l with
  | nil => intro w st; simp [addPrimList]
  | cons o r ih =>
    intro w st
    simpa [addPrimList, add_primitive] using ih _ _

theorem fitRegPhase_fields (w : World) (st : BMSRegressor)
    (root : Option PyVal) (cops : Option (List Op)) :
    (fitRegPhase w st root cops).2.1.variables_ = st.variables_ ∧
    (fitRegPhase w st root cops).2.1.model_ = st.model_ ∧
    (fitRegPhase w st root cops).2.1.models_ = st.models_ ∧
    (fitRegPhase w st root cops).2.1.loss_ = st.loss_ ∧
    (fitRegPhase w st root cops).2.1.cache_ = st.cache_ ∧
    (fitRegPhase w st root cops).2.1.X_ = st.X_ ∧
    (fitRegPhase w st root cops).2.1.y_ = st.y_ ∧
    (fitRegPhase w st root cops).2.1.pms = st.pms ∧
    (fitRegPhase w st root cops).2.1.ts = st.ts ∧
    (fitRegPhase w st root cops).2.1.epochs = st.epochs := by
  have hl := addPrimList_fields (cops.getD []) w st
  unfold fitRegPhase
  cases root with
  | none => simpa using hl
  | some r =>
    by_cases hk : keyMem r (addPrimList w st (cops.getD [])).2.ops = true
    · simpa [hk] using hl
    · cases r with
      | str s => simpa [hk, add_primitive_v] using hl
      | op o => simpa [hk, add_primitive_v, add_primitive] using hl

/-- Modelled from the spec: the standard BMS parameter-only model used to
drive concrete fitting runs in witnesses. -/
def okTree : Tree :=
  { predictFn := fun df => df.rows.map (fun _ => 15)
    reprS := ['a', '0']
    parameters := [['a', '0']]
    parValuesD0 := [(['a', '0'], 15)]
    latexS := ['1', '5'] }

/-- Modelled from the spec: a trivially succeeding engine (session build
always succeeds; the driver returns a best model, its loss, the loss
trajectory, and one population tree per configured temperature). -/
def engOk : Engine :=
  { build := fun _ => .ok ()
    run := fun a _ => .ok ⟨okTree, 1, [1], a.Ts.map (fun _ => okTree)⟩ }

/-! ### C4 — failed fit and previous fitted state -/

/-- C4 counterexample: a successfully fitted estimator (variable names
`["A","B"]`) is refitted with mismatched `X`/`y` row counts; the second fit
fails with the validation error, yet `self.variables` has already been
overwritten (to `["X0"]`) because `fit` assigns it before `check_X_y`.  The
claim that the whole previous fitted state, including the resolved variable
names, is left untouched is therefore false. -/
theorem c4_failed_fit_clobbers_variables_counterexample :
    (fit engOk [PRIORS] initDefault
        (.frame ⟨["A", "B"], [[1, 2], [3, 4]]⟩) [5, 6] 1 none none).2.2 =
      none ∧
    (fit engOk [PRIORS] initDefault
        (.frame ⟨["A", "B"], [[1, 2], [3, 4]]⟩) [5, 6] 1 none none).2.1.variables_ =
      ["A", "B"] ∧
    (fit engOk
        (fit engOk [PRIORS] initDefault
          (.frame ⟨["A", "B"], [[1, 2], [3, 4]]⟩) [5, 6] 1 none none).1
        (fit engOk [PRIORS] initDefault
          (.frame ⟨["A", "B"], [[1, 2], [3, 4]]⟩) [5, 6] 1 none none).2.1
        (.arr [[1], [2]]) [1] 1 none none).2.2 =
      some (.valueError "inconsistent numbers of samples") ∧
    (fit engOk
        (fit engOk [PRIORS] initDefault
          (.frame ⟨["A", "B"], [[1, 2], [3, 4]]⟩) [5, 6] 1 none none).1
        (fit engOk [PRIORS] initDefault
          (.frame ⟨["A", "B"], [[1, 2], [3, 4]]⟩) [5, 6] 1 none none).2.1
        (.arr [[1], [2]]) [1] 1 none none).2.1.variables_ =
      ["X0"] ∧
    (["X0"] : List String) ≠ ["A", "B"] := by
  refine ⟨rfl, rfl, rfl, rfl, by decide⟩

/-- C4 amended: a failed `fit` (validation error, failed root registration,
or engine failure during session build or run) leaves the previous best
model, loss, loss trajectory, model population and retained `X_`/`y_`
untouched — those are only assigned after a successful run — but the
resolved variable names are overwritten before validation (and the session
object may be replaced when the run step fails). -/
theorem c4_failed_fit_amended (eng : Engine) (w : World) (st : BMSRegressor)
    (X : XInput) (y : List ℚ) (np : Nat) (root : Option PyVal)
    (cops : Option (List Op)) (w' : World) (st' : BMSRegressor) (e : BMSError)
    (h : fit eng w st X y np root cops = (w', st', some e)) :
    st'.model_ = st.model_ ∧ st'.loss_ = st.loss_ ∧ st'.cache_ = st.cache_ ∧
    st'.models_ = st.models_ ∧ st'.X_ = st.X_ ∧ st'.y_ = st.y_ := by
  have hreg := fitRegPhase_fields w { st with variables_ := resolveNames X }
    root cops
  simp only [fit] at h
  split at h
  · -- check_X_y failed: only `variables` has been assigned
    have hst := congrArg
      (fun p : World × BMSRegressor × Option BMSError => p.2.1) h
    simp only at hst
    rw [← hst]
    exact ⟨rfl, rfl, rfl, rfl, rfl, rfl⟩
  · split at h
    · -- registration phase failed (string root without __name__)
      rename_i w1 st1 e2 heq
      have hst := congrArg
        (fun p : World × BMSRegressor × Option BMSError => p.2.1) h
      simp only at hst
      have h1 := congrArg
        (fun p : World × BMSRegressor × Option BMSError => p.2.1) heq
      simp only at h1
      rw [← hst, ← h1]
      exact ⟨hreg.2.1, hreg.2.2.2.1, hreg.2.2.2.2.1, hreg.2.2.1,
        hreg.2.2.2.2.2.1, hreg.2.2.2.2.2.2.1⟩
    · rename_i w1 st1 heq
      have h1 := congrArg
        (fun p : World × BMSRegressor × Option BMSError => p.2.1) heq
      simp only at h1
      split at h
      · -- session build failed
        have hst := congrArg
          (fun p : World × BMSRegressor × Option BMSError => p.2.1) h
        simp only at hst
        rw [← hst, ← h1]
        exact ⟨hreg.2.1, hreg.2.2.2.1, hreg.2.2.2.2.1, hreg.2.2.1,
          hreg.2.2.2.2.2.1, hreg.2.2.2.2.2.2.1⟩
      · split at h
        · -- run failed: only `pms` was additionally replaced
          have hst := congrArg
            (fun p : World × BMSRegressor × Option BMSError => p.2.1) h
          simp only at hst
          rw [← hst, ← h1]
          exact ⟨hreg.2.1, hreg.2.2.2.1, hreg.2.2.2.2.1, hreg.2.2.1,
            hreg.2.2.2.2.2.1, hreg.2.2.2.2.2.2.1⟩
        · -- a successful run contradicts the failure hypothesis
          exact absurd (congrArg
            (fun p : World × BMSRegressor × Option BMSError => p.2.2) h)
            (by simp)

/-- C4 amended witness: a concrete failing refit (mismatched row counts)
leaves the default placeholder fitted-state fields untouched. -/
theorem c4_failed_fit_amended_witness :
    (fit engOk [PRIORS] initDefault (.arr [[1], [2]]) [1] 1 none none).2.1.model_
        = initDefault.model_ ∧
    (fit engOk [PRIORS] initDefault (.arr [[1], [2]]) [1] 1 none none).2.1.loss_
        = initDefault.loss_ ∧
    (fit engOk [PRIORS] initDefault (.arr [[1], [2]]) [1] 1 none none).2.1.cache_
        = initDefault.cache_ ∧
    (fit engOk [PRIORS] initDefault (.arr [[1], [2]]) [1] 1 none none).2.1.models_
        = initDefault.models_ ∧
    (fit engOk [PRIORS] initDefault (.arr [[1], [2]]) [1] 1 none none).2.1.X_
        = initDefault.X_ ∧
    (fit engOk [PRIORS] initDefault (.arr [[1], [2]]) [1] 1 none none).2.1.y_
        = initDefault.y_ :=
  c4_failed_fit_amended engOk [PRIORS] initDefault (.arr [[1], [2]]) [1] 1
    none none _ _ (.valueError "inconsistent numbers of samples") rfl

/-! ### Fit success characterization -/

theorem fit_success_spec (eng : Engine) (w : World) (st : BMSRegressor)
    (X : XInput) (y : List ℚ) (np : Nat) (root : Option PyVal)
    (cops : Option (List Op)) (w' : World) (st' : BMSRegressor)
    (h : fit eng w st X y np root cops = (w', st', none)) :
    ∃ (rows : List (List ℚ)) (res : RunResult) (args : SessionArgs),
      st'.variables_ = resolveNames X ∧
      st'.X_ = some ⟨resolveNames X, rows⟩ ∧
      st'.ts = st.ts ∧
      st'.models_ = res.population ∧
      args.Ts = st.ts ∧
      eng.run args st.epochs = .ok res := by
  have hreg := fitRegPhase_fields w { st with variables_ := resolveNames X }
    root cops
  simp only [fit] at h
  split at h
  · exact absurd (congrArg
      (fun p : World × BMSRegressor × Option BMSError => p.2.2) h) (by simp)
  · rename_i rows y1 heqxy
    split at h
    · exact absurd (congrArg
        (fun p : World × BMSRegressor × Option BMSError => p.2.2) h) (by simp)
    · rename_i w1 st1 heqreg
      have h1 := congrArg
        (fun p : World × BMSRegressor × Option BMSError => p.2.1) heqreg
      simp only at h1
      split at h
      · exact absurd (congrArg
          (fun p : World × BMSRegressor × Option BMSError => p.2.2) h) (by simp)
      · split at h
        · exact absurd (congrArg
            (fun p : World × BMSRegressor × Option BMSError => p.2.2) h)
            (by simp)
        · rename_i u heqbuild res heqrun
          have hst := congrArg
            (fun p : World × BMSRegressor × Option BMSError => p.2.1) h
          simp only at hst
          refine ⟨rows, res,
            { Ts := st1.ts
              variables_ := st1.variables_
              parameters := paramNames np
              x := ⟨resolveNames X, rows⟩
              y := y1
              prior_par := heapGet w1 st1.prior_par
              ops := st1.ops
              custom_ops := st1.custom_ops
              root := root }, ?_, ?_, ?_, ?_, ?_, ?_⟩
          · rw [← hst]
            show st1.variables_ = resolveNames X
            rw [← h1]
            exact hreg.1
          · rw [← hst]
          · rw [← hst]
            show st1.ts = st.ts
            rw [← h1]
            exact hreg.2.2.2.2.2.2.2.2.1
          · rw [← hst]
          · show st1.ts = st.ts
            rw [← h1]
            exact hreg.2.2.2.2.2.2.2.2.1
          · have heps : st1.epochs = st.epochs := by
              rw [← h1]
              exact hreg.2.2.2.2.2.2.2.2.2
            rw [← heps]
            exact heqrun

/-- `(resolveNames X).length` is the feature-column count, in both the
labelled and the unlabelled branch. -/
theorem resolveNames_length (X : XInput) :
    (resolveNames X).length = widthOf X := by
  cases X with
  | frame df => simp [resolveNames, widthOf]
  | arr rows => simp [resolveNames]

/-- Successful `predict`: validation passes, the guard passes, and the data
is re-labelled with the stored variable names before delegation. -/
theorem predict_ok (st : BMSRegressor) (X : XInput) (rows : List (List ℚ))
    (hA : check_array X = .ok rows)
    (h2 : (rows.all (fun r => r.length = st.variables_.length)) = true) :
    predict st X =
      .ok (expandDims (st.model_.predictFn ⟨st.variables_, rows⟩)) := by
  unfold predict
  rw [hA]
  show (do
    let df ← mkDF rows st.variables_
    Except.ok (expandDims (st.model_.predictFn df))) = _
  unfold mkDF
  rw [if_pos h2]
  rfl

/-- `get_models` facades all carry the column labels of the stored `X_`. -/
theorem goGetModels_variables (st : BMSRegressor) (df : DataFrame)
    (hX : st.X_ = some df) :
    ∀ (trees : List Tree) (idx : Nat) (l : List BMSRegressor),
      goGetModels st idx trees = .ok l →
      ∀ m ∈ l, m.variables_ = df.columns := by
  intro trees
  induction trees with
  | nil =>
    intro idx l h m hm
    simp only [goGetModels] at h
    cases h
    simp at hm
  | cons t rest ih =>
    intro idx l h m hm
    unfold goGetModels at h
    cases hts : st.ts.get? idx with
    | none => rw [hts] at h; cases h
    | some T =>
      rw [hts, hX] at h
      cases hrec : goGetModels st (idx + 1) rest with
      | error e => rw [hrec] at h; cases h
      | ok l' =>
        rw [hrec] at h
        have hl : ({ initDefault with
            model_ := t, temp_ := T, variables_ := df.columns } :: l') = l := by
          exact (Except.ok.injEq _ _).mp h
        rw [← hl] at hm
        rcases List.mem_cons.mp hm with hm0 | hmr
        · rw [hm0]
        · exact ih (idx + 1) l' hrec m hmr

/-- C2: after a successful `fit`, the resolved variable-name sequence is
exactly the input's column labels (labelled case) or `X0..X(n-1)`
(unlabelled case), has length `n`, and is reused verbatim: `predict`
re-labels its input with precisely this sequence, and every `get_models`
facade carries precisely this sequence. -/
theorem c2_variable_names (eng : Engine) (w : World) (st : BMSRegressor)
    (X : XInput) (y : List ℚ) (np : Nat) (root : Option PyVal)
    (cops : Option (List Op)) (w' : World) (st' : BMSRegressor)
    (h : fit eng w st X y np root cops = (w', st', none)) :
    st'.variables_ = resolveNames X ∧
    st'.variables_.length = widthOf X ∧
    (∀ df, X = .frame df → st'.variables_ = df.columns) ∧
    (∀ rows, X = .arr rows →
      st'.variables_ =
        (List.range (widthOf X)).map (fun i => "X" ++ toString i)) ∧
    (∀ (X₂ : XInput) (rows₂ : List (List ℚ)), check_array X₂ = .ok rows₂ →
      (rows₂.all (fun r => r.length = st'.variables_.length)) = true →
      predict st' X₂ =
        .ok (expandDims (st'.model_.predictFn ⟨st'.variables_, rows₂⟩))) ∧
    (∀ l, get_models st' = .ok l → ∀ m ∈ l, m.variables_ = st'.variables_) := by
  obtain ⟨rows, res, args, hvars, hX, -, -, -, -⟩ :=
    fit_success_spec eng w st X y np root cops w' st' h
  refine ⟨hvars, ?_, ?_, ?_, ?_, ?_⟩
  · rw [hvars]; exact resolveNames_length X
  · intro df hdf; rw [hvars, hdf]; rfl
  · intro rows0 hrows; rw [hvars, hrows]; rfl
  · intro X₂ rows₂ hA h2
    exact predict_ok st' X₂ rows₂ hA h2
  · intro l hl m hm
    have := goGetModels_variables st' ⟨resolveNames X, rows⟩ hX
      st'.models_ 0 l hl m hm
    rw [this, hvars]

/-- C2 witness: a labelled two-column frame. -/
theorem c2_variable_names_witness :
    (fit engOk [PRIORS] initDefault
      (.frame ⟨["p", "q"], [[1, 2]]⟩) [3] 1 none none).2.1.variables_ =
      resolveNames (.frame ⟨["p", "q"], [[1, 2]]⟩) :=
  (c2_variable_names engOk [PRIORS] initDefault
    (.frame ⟨["p", "q"], [[1, 2]]⟩) [3] 1 none none _ _ rfl).1

/-- Every entry of `check_array`'s successful result keeps the input rows. -/
theorem check_array_ok_rows (X : XInput) (rows : List (List ℚ))
    (h : check_array X = .ok rows) : rows = rowsOf X := by
  unfold check_array at h
  split at h
  · cases h
  · split at h
    · cases h
    · split at h
      · cases h
      · exact ((Except.ok.injEq _ _).mp h).symm

/-- C5: on a fitted estimator, for any well-formed `X` whose column count
matches the stored variable-name count, `predict` returns the best model's
predictions over `X` re-labelled with the stored names, expanded to a
single column with one row per input row. -/
theorem c5_predict_shape (st : BMSRegressor) (X : XInput)
    (rows : List (List ℚ)) (hA : check_array X = .ok rows)
    (h2 : (rows.all (fun r => r.length = st.variables_.length)) = true)
    (h3 : (st.model_.predictFn ⟨st.variables_, rows⟩).length = rows.length) :
    predict st X =
      .ok (expandDims (st.model_.predictFn ⟨st.variables_, rows⟩)) ∧
    rows = rowsOf X ∧
    (expandDims (st.model_.predictFn ⟨st.variables_, rows⟩)).length =
      (rowsOf X).length ∧
    ∀ r ∈ expandDims (st.model_.predictFn ⟨st.variables_, rows⟩),
      r.length = 1 := by
  have hrows := check_array_ok_rows X rows hA
  refine ⟨predict_ok st X rows hA h2, hrows, ?_, ?_⟩
  · rw [← hrows, ← h3]
    simp [expandDims]
  · intro r hr
    obtain ⟨q, -, hq⟩ := List.mem_map.mp hr
    rw [← hq]
    rfl

/-- C5 witness: a concrete fitted-like state with one variable. -/
theorem c5_predict_shape_witness :
    predict { initDefault with variables_ := ["X0"], model_ := okTree }
      (.arr [[2], [3]]) =
      .ok (expandDims (okTree.predictFn ⟨["X0"], [[2], [3]]⟩)) :=
  (c5_predict_shape { initDefault with variables_ := ["X0"], model_ := okTree }
    (.arr [[2], [3]]) [[2], [3]] rfl rfl rfl).1

/-! ### C6 — get_models structure -/

theorem goGetModels_spec (st : BMSRegressor) (df : DataFrame)
    (hX : st.X_ = some df) :
    ∀ (trees : List Tree) (idx : Nat), idx + trees.length ≤ st.ts.length →
      ∃ l, goGetModels st idx trees = .ok l ∧ l.length = trees.length ∧
        (∀ (j : Nat) (m : BMSRegressor), l.get? j = some m →
          trees.get? j = some m.model_ ∧ st.ts.get? (idx + j) = some m.temp_ ∧
          m.variables_ = df.columns) := by
  intro trees
  induction trees with
  | nil =>
    intro idx hb
    refine ⟨[], rfl, rfl, ?_⟩
    intro j m hm
    simp at hm
  | cons t rest ih =>
    intro idx hb
    have hidx : idx < st.ts.length := by simp at hb; omega
    obtain ⟨T, hT⟩ : ∃ T, st.ts.get? idx = some T := by
      rw [List.get?_eq_get hidx]
      exact ⟨_, rfl⟩
    obtain ⟨l', hrec, hlen, hjs⟩ := ih (idx + 1) (by simp at hb ⊢; omega)
    refine ⟨{ initDefault with
        model_ := t, temp_ := T, variables_ := df.columns } :: l', ?_, ?_, ?_⟩
    · unfold goGetModels
      rw [hT, hX, hrec]
      rfl
    · simp [hlen]
    · intro j m hm
      cases j with
      | zero =>
        have hm0 : ({ initDefault with
            model_ := t, temp_ := T, variables_ := df.columns }) = m := by
          simpa using hm
        refine ⟨?_, ?_, ?_⟩
        · rw [← hm0]; rfl
        · rw [← hm0]
          simpa using hT
        · rw [← hm0]
      | succ j' =>
        have hm' : l'.get? j' = some m := by simpa using hm
        obtain ⟨ha, hb', hc⟩ := hjs j' m hm'
        refine ⟨by simpa using ha, ?_, hc⟩
        have : idx + 1 + j' = idx + (j' + 1) := by omega
        rw [← this]
        exact hb'

/-- C6: after a successful `fit` with an engine whose final population holds
one tree per configured temperature, `get_models` returns one facade per
population model; the `i`-th facade carries the `i`-th population model, the
temperature at position `i` of the configured ladder, and the fit-time
variable names. -/
theorem c6_get_models_per_temperature (eng : Engine) (w : World)
    (st : BMSRegressor) (X : XInput) (y : List ℚ) (np : Nat)
    (root : Option PyVal) (cops : Option (List Op)) (w' : World)
    (st' : BMSRegressor)
    (hpop : ∀ a n r, eng.run a n = .ok r → r.population.length = a.Ts.length)
    (h : fit eng w st X y np root cops = (w', st', none)) :
    ∃ l, get_models st' = .ok l ∧
      l.length = st'.ts.length ∧
      l.length = st'.models_.length ∧
      ∀ (i : Nat) (m : BMSRegressor), l.get? i = some m →
        st'.models_.get? i = some m.model_ ∧
        st'.ts.get? i = some m.temp_ ∧
        m.variables_ = st'.variables_ := by
  obtain ⟨rows, res, args, hvars, hX, hts, hmods, hTs, hrun⟩ :=
    fit_success_spec eng w st X y np root cops w' st' h
  have hlen : st'.models_.length = st'.ts.length := by
    rw [hmods, hpop args st.epochs res hrun, hTs, hts]
  obtain ⟨l, hl, hllen, hjs⟩ :=
    goGetModels_spec st' ⟨resolveNames X, rows⟩ hX st'.models_ 0
      (by omega)
  refine ⟨l, hl, by omega, by omega, ?_⟩
  intro i m hm
  obtain ⟨ha, hb, hc⟩ := hjs i m hm
  refine ⟨ha, by simpa using hb, ?_⟩
  rw [hc, hvars]

/-- C6 witness: a concrete fit with the trivially-succeeding engine, whose
population is one tree per temperature by construction. -/
theorem c6_get_models_per_temperature_witness :
    ∃ l, get_models
        (fit engOk [PRIORS] initDefault (.arr [[1], [2]]) [1, 2] 1
          none none).2.1 = .ok l ∧
      l.length =
        (fit engOk [PRIORS] initDefault (.arr [[1], [2]]) [1, 2] 1
          none none).2.1.ts.length := by
  obtain ⟨l, h1, h2, -⟩ := c6_get_models_per_temperature engOk [PRIORS]
    initDefault (.arr [[1], [2]]) [1, 2] 1 none none _ _
    (by
      intro a n r hr
      have : r = ⟨okTree, 1, [1], a.Ts.map (fun _ => okTree)⟩ :=
        ((Except.ok.injEq _ _).mp hr).symm
      rw [this]
      simp [engOk])
    rfl
  exact ⟨l, h1, h2⟩

/-! ### C7 — custom_ops merge and root registration -/

/-- C7 counterexample: a callable root is compared against the *string keys*
of the operator table, so it is never "known": with an operator named `"f"`
already registered (arity 1), passing a callable root named `"f"` (arity 2)
re-registers it and overwrites the entry, where the claim required the
already-known root not to be re-registered. -/
theorem c7_root_reregistration_counterexample :
    dictHasKey (add_primitive [PRIORS] initDefault ⟨"f", 1⟩).2.ops "f" =
      true ∧
    dictGet (add_primitive [PRIORS] initDefault ⟨"f", 1⟩).2.ops "f" =
      some 1 ∧
    (fit engOk (add_primitive [PRIORS] initDefault ⟨"f", 1⟩).1
        (add_primitive [PRIORS] initDefault ⟨"f", 1⟩).2
        (.arr [[1], [2]]) [1, 2] 1 (some (.op ⟨"f", 2⟩)) none).2.2 = none ∧
    dictGet
      (fit engOk (add_primitive [PRIORS] initDefault ⟨"f", 1⟩).1
        (add_primitive [PRIORS] initDefault ⟨"f", 1⟩).2
        (.arr [[1], [2]]) [1, 2] 1 (some (.op ⟨"f", 2⟩)) none).2.1.ops "f" =
      some 2 ∧
    (some 2 : Option Nat) ≠ some 1 := by
  exact ⟨rfl, rfl, rfl, rfl, by decide⟩

/-- Whenever validation passes, the operator and custom-operator tables of
the post-`fit` state are exactly those produced by the registration phase
(custom-op merge plus root handling), whatever the engine outcome; on
success the stored session carries the same tables. -/
theorem fit_registry_phase_tables (eng : Engine) (w : World)
    (st : BMSRegressor) (X : XInput) (y : List ℚ) (np : Nat)
    (root : Option PyVal) (cops : Option (List Op)) (w' : World)
    (st' : BMSRegressor) (err : Option BMSError) (rows : List (List ℚ))
    (y1 : List ℚ) (hxy : check_X_y X y = .ok (rows, y1))
    (hfit : fit eng w st X y np root cops = (w', st', err)) :
    st'.ops =
      (fitRegPhase w { st with variables_ := resolveNames X } root cops).2.1.ops ∧
    st'.custom_ops =
      (fitRegPhase w { st with variables_ := resolveNames X } root cops).2.1.custom_ops ∧
    (err = none →
      st'.pms.ops = st'.ops ∧ st'.pms.custom_ops = st'.custom_ops) := by
  simp only [fit] at hfit
  split at hfit
  · rename_i e heq
    rw [hxy] at heq
    cases heq
  · rename_i rows' y1' heqxy
    split at hfit
    · rename_i w1 st1 e2 heqreg
      have hB := congrArg
        (fun q : World × BMSRegressor × Option BMSError => q.2.1) heqreg
      simp only at hB
      have hst := congrArg
        (fun q : World × BMSRegressor × Option BMSError => q.2.1) hfit
      simp only at hst
      have herr := congrArg
        (fun q : World × BMSRegressor × Option BMSError => q.2.2) hfit
      simp only at herr
      rw [← hst, ← hB]
      refine ⟨rfl, rfl, ?_⟩
      intro hnone
      rw [hnone] at herr
      cases herr
    · rename_i w1 st1 heqreg
      have hB := congrArg
        (fun q : World × BMSRegressor × Option BMSError => q.2.1) heqreg
      simp only at hB
      split at hfit
      · have hst := congrArg
          (fun q : World × BMSRegressor × Option BMSError => q.2.1) hfit
        simp only at hst
        have herr := congrArg
          (fun q : World × BMSRegressor × Option BMSError => q.2.2) hfit
        simp only at herr
        rw [← hst, ← hB]
        refine ⟨rfl, rfl, ?_⟩
        intro hnone
        rw [hnone] at herr
        cases herr
      · split at hfit
        · have hst := congrArg
            (fun q : World × BMSRegressor × Option BMSError => q.2.1) hfit
          simp only at hst
          have herr := congrArg
            (fun q : World × BMSRegressor × Option BMSError => q.2.2) hfit
          simp only at herr
          rw [← hst, ← hB]
          refine ⟨rfl, rfl, ?_⟩
          intro hnone
          rw [hnone] at herr
          cases herr
        · have hst := congrArg
            (fun q : World × BMSRegressor × Option BMSError => q.2.1) hfit
          simp only at hst
          rw [← hst, ← hB]
          exact ⟨rfl, rfl, fun _ => ⟨rfl, rfl⟩⟩

/-- C7 amended: on any `fit` call that passes validation, all supplied
`custom_ops` are merged (in order, via `add_primitive`) before the session
is built, whatever the outcome; a *callable* root is then always registered
— even when an operator of the same name is already in the table, in which
case the registration overwrites it — because the membership test compares
the root object itself with the string keys; a root given as a *string*
that equals an existing key is not re-registered; and on success the session
receives exactly the merged tables. -/
theorem c7_registration_amended (eng : Engine) (w : World) (st : BMSRegressor)
    (X : XInput) (y : List ℚ) (np : Nat) (cops : List Op)
    (rows : List (List ℚ)) (y1 : List ℚ)
    (hxy : check_X_y X y = .ok (rows, y1)) :
    (∀ w' st' err,
      fit eng w st X y np none (some cops) = (w', st', err) →
      st'.ops =
        (addPrimList w { st with variables_ := resolveNames X } cops).2.ops ∧
      st'.custom_ops =
        (addPrimList w { st with variables_ := resolveNames X } cops).2.custom_ops) ∧
    (∀ (o : Op) w' st' err,
      fit eng w st X y np (some (.op o)) (some cops) = (w', st', err) →
      st'.ops =
        dictUpdate
          (addPrimList w { st with variables_ := resolveNames X } cops).2.ops
          o.name o.arity ∧
      st'.custom_ops =
        dictUpdate
          (addPrimList w { st with variables_ := resolveNames X } cops).2.custom_ops
          o.name o) ∧
    (∀ (s : String) w' st' err,
      dictHasKey
        (addPrimList w { st with variables_ := resolveNames X } cops).2.ops s =
        true →
      fit eng w st X y np (some (.str s)) (some cops) = (w', st', err) →
      st'.ops =
        (addPrimList w { st with variables_ := resolveNames X } cops).2.ops) ∧
    (∀ root w' st',
      fit eng w st X y np root (some cops) = (w', st', none) →
      st'.pms.ops = st'.ops ∧ st'.pms.custom_ops = st'.custom_ops) := by
  refine ⟨?_, ?_, ?_, ?_⟩
  · intro w' st' err hfit
    obtain ⟨h1, h2, -⟩ := fit_registry_phase_tables eng w st X y np none
      (some cops) w' st' err rows y1 hxy hfit
    exact ⟨h1, h2⟩
  · intro o w' st' err hfit
    obtain ⟨h1, h2, -⟩ := fit_registry_phase_tables eng w st X y np
      (some (.op o)) (some cops) w' st' err rows y1 hxy hfit
    exact ⟨h1, h2⟩
  · intro s w' st' err hk hfit
    obtain ⟨h1, -, -⟩ := fit_registry_phase_tables eng w st X y np
      (some (.str s)) (some cops) w' st' err rows y1 hxy hfit
    have hphase : (fitRegPhase w { st with variables_ := resolveNames X }
        (some (.str s)) (some cops)).2.1 =
        (addPrimList w { st with variables_ := resolveNames X } cops).2 := by
      unfold fitRegPhase
      simp only [Option.getD, keyMem]
      rw [if_pos hk]
    rw [h1, hphase]
  · intro root w' st' hfit
    obtain ⟨-, -, h3⟩ := fit_registry_phase_tables eng w st X y np root
      (some cops) w' st' none rows y1 hxy hfit
    exact h3 rfl

/-- C7 amended witness: a concrete fit merging one custom op with a callable
root. -/
theorem c7_registration_amended_witness :
    (fit engOk [PRIORS] initDefault (.arr [[1], [2]]) [1, 2] 1
        (some (.op ⟨"g", 2⟩)) (some [⟨"h", 1⟩])).2.1.ops =
      dictUpdate
        (addPrimList [PRIORS]
          { initDefault with variables_ := resolveNames (.arr [[1], [2]]) }
          [⟨"h", 1⟩]).2.ops
        "g" 2 :=
  ((c7_registration_amended engOk [PRIORS] initDefault (.arr [[1], [2]])
    [1, 2] 1 [⟨"h", 1⟩] [[1], [2]] [1, 2] rfl).2.1 ⟨"g", 2⟩ _ _ _ rfl).1

/-! ### Python `str.replace` and the `repr` method

`BMSRegressor.repr` runs `model_str.replace(name, str(np.round(value,
decimals)))` once per parameter name, in parameter-list order.  Strings are
lists of characters; `pyReplace p v s` is Python's `s.replace(p, v)`:
left-to-right, non-overlapping, all occurrences.  (For the empty pattern —
which never arises, parameter names are nonempty — Python would interleave
`v` everywhere; this model leaves `s` unchanged.) -/

def pyReplaceF (p v : List Char) : Nat → List Char → List Char
  | _, [] => []
  | 0, s => s
  | fuel + 1, c :: cs =>
    if p ≠ [] ∧ p.isPrefixOf (c :: cs) = true then
      v ++ pyReplaceF p v fuel ((c :: cs).drop p.length)
    else
      c :: pyReplaceF p v fuel cs

def pyReplace (p v s : List Char) : List Char := pyReplaceF p v s.length s

theorem pyReplaceF_mono (p v : List Char) :
    ∀ (f1 : Nat), ∀ (f2 : Nat) (s : List Char),
      s.length ≤ f1 → s.length ≤ f2 →
      pyReplaceF p v f1 s = pyReplaceF p v f2 s := by
  intro f1
  induction f1 with
  | zero =>
    intro f2 s h1 h2
    cases s with
    | nil => cases f2 <;> rfl
    | cons c cs => simp at h1
  | succ g1 ih =>
    intro f2 s h1 h2
    cases s with
    | nil => cases f2 <;> rfl
    | cons c cs =>
      cases f2 with
      | zero => simp at h2
      | succ g2 =>
        simp only [pyReplaceF]
        by_cases hc : p ≠ [] ∧ p.isPrefixOf (c :: cs) = true
        · rw [if_pos hc, if_pos hc]
          have hlen : ((c :: cs).drop p.length).length ≤ cs.length := by
            simp only [List.length_drop, List.length_cons]
            have : 1 ≤ p.length := List.length_pos.mpr hc.1
            omega
          have h1' : ((c :: cs).drop p.length).length ≤ g1 := by
            simp at h1; omega
          have h2' : ((c :: cs).drop p.length).length ≤ g2 := by
            simp at h2; omega
          rw [ih g2 _ h1' h2']
        · rw [if_neg hc, if_neg hc]
          have h1' : cs.length ≤ g1 := by simp at h1; omega
          have h2' : cs.length ≤ g2 := by simp at h2; omega
          rw [ih g2 cs h1' h2']

theorem pyReplace_nil (p v : List Char) : pyReplace p v [] = [] := rfl

theorem pyReplace_cons_neg (p v : List Char) (c : Char) (cs : List Char)
    (h : ¬ (p ≠ [] ∧ p.isPrefixOf (c :: cs) = true)) :
    pyReplace p v (c :: cs) = c :: pyReplace p v cs := by
  show pyReplaceF p v (cs.length + 1) (c :: cs) = _
  simp only [pyReplaceF]
  rw [if_neg h]
  rfl

theorem pyReplace_cons_pos (p v : List Char) (c : Char) (cs : List Char)
    (h : p ≠ [] ∧ p.isPrefixOf (c :: cs) = true) :
    pyReplace p v (c :: cs) = v ++ pyReplace p v ((c :: cs).drop p.length) := by
  show pyReplaceF p v (cs.length + 1) (c :: cs) = _
  simp only [pyReplaceF]
  rw [if_pos h]
  have hlen : ((c :: cs).drop p.length).length ≤ cs.length := by
    simp only [List.length_drop, List.length_cons]
    have : 1 ≤ p.length := List.length_pos.mpr h.1
    omega
  rw [pyReplaceF_mono p v cs.length ((c :: cs).drop p.length).length _ hlen
    (le_refl _)]
  rfl

/-- `np.round`'s round-half-to-even of `q * 10^d`, computed on the raw
numerator/denominator (the denominator is positive, so the floor is `fdiv`;
`r2` is twice the fractional remainder scaled by the denominator). -/
def roundHalfEvenScaled (q : ℚ) (d : Nat) : ℤ :=
  let n : ℤ := q.num * (10 : ℤ) ^ d
  let den : ℤ := (q.den : ℤ)
  let f : ℤ := n.fdiv den
  let r2 : ℤ := 2 * (n - f * den)
  if r2 < den then f
  else if den < r2 then f + 1
  else if f % 2 = 0 then f else f + 1

/-- `np.round(q, d)`: half-to-even at `d` decimal places. -/
def npRound (q : ℚ) (d : Nat) : ℚ :=
  (roundHalfEvenScaled q d : ℚ) / 10 ^ d

def digitChar : Nat → Char
  | 0 => '0' | 1 => '1' | 2 => '2' | 3 => '3' | 4 => '4'
  | 5 => '5' | 6 => '6' | 7 => '7' | 8 => '8' | _ => '9'

def natDigitsAux : Nat → Nat → List Char
  | 0, _ => []
  | _ + 1, 0 => []
  | fuel + 1, n => natDigitsAux fuel (n / 10) ++ [digitChar (n % 10)]

/-- Decimal digits of `n`, most significant first. -/
def natDigits (n : Nat) : List Char :=
  if n = 0 then ['0'] else natDigitsAux n n

def padZeros (d : Nat) (l : List Char) : List Char :=
  List.replicate (d - l.length) '0' ++ l

def stripTrailingZeros (l : List Char) : List Char :=
  (l.reverse.dropWhile (fun c => c = '0')).reverse

/-- `str(np.round(q, d))`: sign, integer digits, `'.'`, and the fractional
digits with trailing zeros removed (at least one digit, as in float repr).
Exact-float shortest-repr artifacts do not arise over `ℚ`; what the claims
need is the digits-sign-dot alphabet of the result. -/
def pyFloatStr (q : ℚ) (d : Nat) : List Char :=
  let m := roundHalfEvenScaled q d
  let a := m.natAbs
  let fdigits := stripTrailingZeros (padZeros d (natDigits (a % 10 ^ d)))
  (if m < 0 then ['-'] else []) ++ natDigits (a / 10 ^ d) ++ ['.'] ++
    (if fdigits.isEmpty then ['0'] else fdigits)

/-- The fitted value string substituted for parameter `p` (the claims only
use it when the lookup succeeds). -/
def valOf (t : Tree) (decimals : Nat) (p : List Char) : List Char :=
  match dictGet t.parValuesD0 p with
  | some q => pyFloatStr q decimals
  | none => []

/-- One step of the `repr` loop: `value = parameter_values["d0"][name]`
(KeyError when absent), then `model_str.replace(name, str(np.round(value,
decimals)))`. -/
def reprStep (t : Tree) (decimals : Nat) (acc : List Char)
    (name : List Char) : Except BMSError (List Char) :=
  match dictGet t.parValuesD0 name with
  | none => .error (.keyError (String.mk name))
  | some q => .ok (pyReplace name (pyFloatStr q decimals) acc)

/-- `BMSRegressor.repr(decimals)` (lines 182–189); named `bmsRepr` because
`repr` is taken by Lean's `Repr` class. -/
def bmsRepr (st : BMSRegressor) (decimals : Nat) :
    Except BMSError (List Char) :=
  st.model_.parameters.foldlM (reprStep st.model_ decimals) st.model_.reprS

/-! ### Token structure of renderings -/

/-- No `'a'` occurs in `s` — such a string can contain no parameter name. -/
def noA (s : List Char) : Bool := s.all (fun c => c ≠ 'a')

/-- A parameter name as built by `fit`: `'a'` followed by one or more
digits. -/
def goodName : List Char → Bool
  | [] => false
  | c :: ds => (c == 'a') && (!ds.isEmpty) && ds.all (fun c => c.isDigit)

/-- `p` occurs as a contiguous substring of `s`. -/
def occursIn (p : List Char) : List Char → Bool
  | [] => p.isEmpty
  | c :: cs => p.isPrefixOf (c :: cs) || occursIn p cs

/-- A rendering decomposed into alternating parameter occurrences and
separator segments: `(p, s)` contributes `p ++ s`. -/
def glueItems : List (List Char × List Char) → List Char
  | [] => []
  | (p, s) :: r => p ++ (s ++ glueItems r)

/-- Replace the first component of every item equal to `n` by `v` (one
`str.replace` pass, at the token level). -/
def substOne (n v : List Char)
    (items : List (List Char × List Char)) :
    List (List Char × List Char) :=
  items.map (fun it => (if it.1 = n then v else it.1, it.2))

/-! ### Character-class lemmas -/

theorem noA_append (x y : List Char) :
    noA (x ++ y) = (noA x && noA y) := by
  simp [noA, List.all_append]

theorem noA_mem (s : List Char) (hs : noA s = true) (c : Char) (hc : c ∈ s) :
    c ≠ 'a' := by
  simp only [noA, List.all_eq_true] at hs
  simpa using hs c hc

theorem goodName_head (p : List Char) (hp : goodName p = true) :
    ∃ ds, p = 'a' :: ds ∧ ds ≠ [] ∧ noA ds = true := by
  cases p with
  | nil => simp [goodName] at hp
  | cons c ds =>
    simp only [goodName, Bool.and_eq_true, beq_iff_eq, Bool.not_eq_true',
      List.all_eq_true] at hp
    obtain ⟨⟨hc, hne⟩, hdig⟩ := hp
    subst hc
    refine ⟨ds, rfl, ?_, ?_⟩
    · intro h
      rw [h] at hne
      exact absurd hne (by decide)
    · simp only [noA, List.all_eq_true]
      intro x hx
      have hd := hdig x hx
      simp only [decide_eq_true_eq] at hd ⊢
      intro hxa
      rw [hxa] at hd
      exact absurd hd (by decide)

theorem noA_ne_goodName (x n : List Char) (hx : noA x = true)
    (hn : goodName n = true) : x ≠ n := by
  obtain ⟨ds, hds, -, -⟩ := goodName_head n hn
  intro hxn
  have : ('a' : Char) ∈ x := by rw [hxn, hds]; simp
  exact absurd rfl (noA_mem x hx 'a' this)

/-! ### `pyReplace` over safe regions and occurrences -/

theorem pyReplace_append_noA (ds v w t : List Char) (hw : noA w = true) :
    pyReplace ('a' :: ds) v (w ++ t) = w ++ pyReplace ('a' :: ds) v t := by
  induction w with
  | nil => simp
  | cons c ws ih =>
    have hca : c ≠ 'a' := noA_mem _ hw c (by simp)
    have hws : noA ws = true := by
      simp only [noA, List.all_cons, Bool.and_eq_true] at hw
      exact hw.2
    have hpre : ('a' :: ds).isPrefixOf (c :: (ws ++ t)) = false := by
      simp only [List.isPrefixOf_cons₂]
      have : ('a' == c) = false := by
        simp only [beq_eq_false_iff_ne]
        exact fun h => hca h.symm
      simp [this]
    rw [List.cons_append, pyReplace_cons_neg _ _ _ _ (by simp [hpre]), ih hws]
    rfl

theorem pyReplace_noA (ds v w : List Char) (hw : noA w = true) :
    pyReplace ('a' :: ds) v w = w := by
  have := pyReplace_append_noA ds v w [] hw
  simpa [pyReplace_nil] using this

theorem pyReplace_append_self (p v t : List Char) (hp : p ≠ []) :
    pyReplace p v (p ++ t) = v ++ pyReplace p v t := by
  cases p with
  | nil => exact absurd rfl hp
  | cons c cs =>
    have hpre : (c :: cs).isPrefixOf ((c :: cs) ++ t) = true := by
      rw [List.isPrefixOf_iff_prefix]
      exact List.prefix_append _ _
    rw [List.cons_append, pyReplace_cons_pos _ _ _ _ ⟨by simp, by
      rw [← List.cons_append]; exact hpre⟩]
    congr 1
    rw [← List.cons_append, List.drop_left]

theorem isPrefixOf_append_other (n q t : List Char)
    (h1 : q.isPrefixOf n = false) (h2 : n.isPrefixOf q = false) :
    n.isPrefixOf (q ++ t) = false := by
  by_contra hc
  have hc' : n <+: q ++ t := by
    rw [← List.isPrefixOf_iff_prefix]
    simpa using hc
  have hq : q <+: q ++ t := List.prefix_append _ _
  rcases List.prefix_or_prefix_of_prefix hc' hq with h | h
  · rw [← List.isPrefixOf_iff_prefix] at h
    rw [h] at h2
    cases h2
  · rw [← List.isPrefixOf_iff_prefix] at h
    rw [h] at h1
    cases h1

/-- An item in a decomposed rendering, relative to the name `n` being
replaced: either an already-substituted `'a'`-free value, or a live
parameter name that is `n` itself or prefix-incomparable with `n`. -/
def itemOk (n p : List Char) : Prop :=
  noA p = true ∨
    (goodName p = true ∧
      (p = n ∨ (p.isPrefixOf n = false ∧ n.isPrefixOf p = false)))

/-- One `str.replace` pass over a decomposed rendering replaces exactly the
occurrences of the name and nothing else. -/
theorem pyReplace_glue (n v : List Char) (hn : goodName n = true) :
    ∀ (items : List (List Char × List Char)) (s0 : List Char),
      noA s0 = true →
      (∀ it ∈ items, itemOk n it.1 ∧ noA it.2 = true) →
      pyReplace n v (s0 ++ glueItems items) =
        s0 ++ glueItems (substOne n v items) := by
  obtain ⟨ds, hds, hdsne, hdsA⟩ := goodName_head n hn
  intro items
  induction items with
  | nil =>
    intro s0 hs0 _
    rw [hds]
    simpa [glueItems, substOne, pyReplace_nil] using
      pyReplace_append_noA ds v s0 [] hs0
  | cons it rest ih =>
    intro s0 hs0 hits
    obtain ⟨p, s⟩ := it
    have hhead := (hits (p, s) (by simp)).1
    have hseg : noA s = true := (hits (p, s) (by simp)).2
    have hrest : ∀ it ∈ rest, itemOk n it.1 ∧ noA it.2 = true := by
      intro it hit
      exact hits it (by simp [hit])
    rcases hhead with hval | ⟨hg, hcase⟩
    · -- `p` is an already-substituted value: the whole block is safe
      have hkeep : p ≠ n := noA_ne_goodName p n hval hn
      have hsafe : noA ((s0 ++ p) ++ s) = true := by
        simp [noA_append, hs0, hval, hseg]
      have step : pyReplace n v (((s0 ++ p) ++ s) ++ glueItems rest) =
          ((s0 ++ p) ++ s) ++ pyReplace n v (glueItems rest) := by
        rw [hds]
        exact pyReplace_append_noA ds v _ _ hsafe
      have tail : pyReplace n v (glueItems rest) =
          glueItems (substOne n v rest) := by
        simpa using ih [] rfl hrest
      calc pyReplace n v (s0 ++ glueItems ((p, s) :: rest))
          = pyReplace n v (((s0 ++ p) ++ s) ++ glueItems rest) := by
            simp [glueItems]
        _ = ((s0 ++ p) ++ s) ++ glueItems (substOne n v rest) := by
            rw [step, tail]
        _ = s0 ++ glueItems (substOne n v ((p, s) :: rest)) := by
            simp [glueItems, substOne, hkeep]
    · rcases hcase with hpeq | ⟨hpn, hnp⟩
      · -- an occurrence of `n` itself: it is replaced by `v`
        rw [show p = n from hpeq]
        have step1 : pyReplace n v (s0 ++ (n ++ (s ++ glueItems rest))) =
            s0 ++ pyReplace n v (n ++ (s ++ glueItems rest)) := by
          rw [hds]
          exact pyReplace_append_noA ds v s0 _ hs0
        have hnne : n ≠ [] := by rw [hds]; simp
        have step2 : pyReplace n v (n ++ (s ++ glueItems rest)) =
            v ++ pyReplace n v (s ++ glueItems rest) :=
          pyReplace_append_self n v _ hnne
        have step3 : pyReplace n v (s ++ glueItems rest) =
            s ++ glueItems (substOne n v rest) := ih s hseg hrest
        calc pyReplace n v (s0 ++ glueItems ((n, s) :: rest))
            = pyReplace n v (s0 ++ (n ++ (s ++ glueItems rest))) := by
              simp [glueItems]
          _ = s0 ++ (v ++ (s ++ glueItems (substOne n v rest))) := by
              rw [step1, step2, step3]
          _ = s0 ++ glueItems (substOne n v ((n, s) :: rest)) := by
              simp [glueItems, substOne]
      · -- a live different name: prefix-incomparability forbids any match
        obtain ⟨es, hes, -, hesA⟩ := goodName_head p hg
        have hnp' : n.isPrefixOf p = false := hnp
        have hpn' : p.isPrefixOf n = false := hpn
        have hkeep : p ≠ n := by
          intro hpe
          have hself : n.isPrefixOf n = true := by
            rw [List.isPrefixOf_iff_prefix]
          rw [hpe] at hnp'
          rw [hself] at hnp'
          cases hnp' 
        have step1 : pyReplace n v (s0 ++ (p ++ (s ++ glueItems rest))) =
            s0 ++ pyReplace n v (p ++ (s ++ glueItems rest)) := by
          rw [hds]
          exact pyReplace_append_noA ds v s0 _ hs0
        have hnomatch : n.isPrefixOf (p ++ (s ++ glueItems rest)) = false :=
          isPrefixOf_append_other n p _ hpn' hnp'
        have step2 : pyReplace n v (p ++ (s ++ glueItems rest)) =
            'a' :: pyReplace n v (es ++ (s ++ glueItems rest)) := by
          rw [hes, List.cons_append]
          rw [pyReplace_cons_neg _ _ _ _ (by
            rw [hes, List.cons_append] at hnomatch
            simp [hnomatch])]
        have step3 : pyReplace n v (es ++ (s ++ glueItems rest)) =
            es ++ pyReplace n v (s ++ glueItems rest) := by
          rw [hds]
          exact pyReplace_append_noA ds v es _ hesA
        have step4 : pyReplace n v (s ++ glueItems rest) =
            s ++ glueItems (substOne n v rest) := ih s hseg hrest
        calc pyReplace n v (s0 ++ glueItems ((p, s) :: rest))
            = pyReplace n v (s0 ++ (p ++ (s ++ glueItems rest))) := by
              simp [glueItems]
          _ = s0 ++ ('a' :: (es ++ (s ++ glueItems (substOne n v rest)))) := by
              rw [step1, step2, step3, step4]
          _ = s0 ++ glueItems (substOne n v ((p, s) :: rest)) := by
              have hkeep2 : ('a' :: es) ≠ n := by rw [← hes]; exact hkeep
              simp [glueItems, substOne, hkeep2, hes]

/-! ### The substituted value strings contain no `'a'` -/

theorem digitChar_ne_a (k : Nat) : digitChar k ≠ 'a' := by
  unfold digitChar
  split <;> decide

theorem natDigitsAux_noA (fuel : Nat) :
    ∀ n : Nat, noA (natDigitsAux fuel n) = true := by
  induction fuel with
  | zero => intro n; rfl
  | succ f ih =>
    intro n
    cases n with
    | zero => rfl
    | succ m =>
      show noA (natDigitsAux f ((m + 1) / 10) ++ [digitChar ((m + 1) % 10)]) =
        true
      rw [noA_append]
      simp only [Bool.and_eq_true]
      refine ⟨ih _, ?_⟩
      simp [noA, digitChar_ne_a]

theorem natDigits_noA (n : Nat) : noA (natDigits n) = true := by
  unfold natDigits
  split
  · decide
  · exact natDigitsAux_noA n n

theorem padZeros_noA (d : Nat) (l : List Char) (h : noA l = true) :
    noA (padZeros d l) = true := by
  simp only [padZeros, noA_append, Bool.and_eq_true]
  refine ⟨?_, h⟩
  simp only [noA, List.all_eq_true]
  intro c hc
  have := List.eq_of_mem_replicate hc
  simp [this]

theorem stripTrailingZeros_noA (l : List Char) (h : noA l = true) :
    noA (stripTrailingZeros l) = true := by
  simp only [noA, List.all_eq_true] at h ⊢
  intro c hc
  apply h
  unfold stripTrailingZeros at hc
  rw [List.mem_reverse] at hc
  have hsub := List.dropWhile_sublist (l := l.reverse)
    (p := fun c => decide (c = '0'))
  have := hsub.subset hc
  rwa [List.mem_reverse] at this

theorem pyFloatStr_noA (q : ℚ) (d : Nat) : noA (pyFloatStr q d) = true := by
  unfold pyFloatStr
  simp only [noA_append, Bool.and_eq_true]
  refine ⟨⟨⟨?_, natDigits_noA _⟩, by decide⟩, ?_⟩
  · split <;> decide
  · split
    · decide
    · exact stripTrailingZeros_noA _ (padZeros_noA _ _ (natDigits_noA _))

theorem valOf_noA (t : Tree) (d : Nat) (p : List Char) :
    noA (valOf t d p) = true := by
  unfold valOf
  split
  · exact pyFloatStr_noA _ _
  · rfl

theorem occursIn_eq_false_of_noA (p s : List Char) (hs : noA s = true)
    (hp : goodName p = true) : occursIn p s = false := by
  obtain ⟨ds, hds, -, -⟩ := goodName_head p hp
  induction s with
  | nil => rw [hds]; rfl
  | cons c cs ih =>
    have hca : c ≠ 'a' := noA_mem _ hs c (by simp)
    have hcs : noA cs = true := by
      simp only [noA, List.all_cons, Bool.and_eq_true] at hs
      exact hs.2
    have hpre : p.isPrefixOf (c :: cs) = false := by
      rw [hds]
      simp only [List.isPrefixOf_cons₂]
      have : ('a' == c) = false := by
        simp only [beq_eq_false_iff_ne]
        exact fun h => hca h.symm
      simp [this]
    simp only [occursIn, Bool.or_eq_false_iff]
    exact ⟨hpre, ih hcs⟩

/-! ### The full `repr` loop over a decomposed rendering -/

/-- The decomposed rendering after the names in `done` have been
substituted. -/
def substDone (t : Tree) (decimals : Nat) (done : List (List Char))
    (items : List (List Char × List Char)) :
    List (List Char × List Char) :=
  items.map
    (fun it => (if it.1 ∈ done then valOf t decimals it.1 else it.1, it.2))

theorem substDone_nil (t : Tree) (d : Nat)
    (items : List (List Char × List Char)) :
    substDone t d [] items = items := by
  simp [substDone]

theorem substDone_congr (t : Tree) (d : Nat) (d1 d2 : List (List Char))
    (items : List (List Char × List Char))
    (h : ∀ x, x ∈ d1 ↔ x ∈ d2) :
    substDone t d d1 items = substDone t d d2 items := by
  simp only [substDone]
  apply List.map_congr_left
  intro it _
  by_cases hx : it.1 ∈ d1
  · simp [hx, (h it.1).mp hx]
  · have hx2 : it.1 ∉ d2 := fun hh => hx ((h it.1).mpr hh)
    simp [hx, hx2]

theorem substOne_substDone (t : Tree) (dec : Nat) (n : List Char)
    (hn : goodName n = true) (q : ℚ)
    (hq : dictGet t.parValuesD0 n = some q)
    (done : List (List Char)) (items : List (List Char × List Char)) :
    substOne n (pyFloatStr q dec) (substDone t dec done items) =
      substDone t dec (n :: done) items := by
  simp only [substOne, substDone, List.map_map]
  apply List.map_congr_left
  intro it _
  simp only [Function.comp]
  by_cases hdone : it.1 ∈ done
  · have hne : valOf t dec it.1 ≠ n :=
      noA_ne_goodName _ n (valOf_noA t dec it.1) hn
    simp [hdone, hne, List.mem_cons]
  · by_cases hn' : it.1 = n
    · have hdone' : n ∉ done := by rw [← hn']; exact hdone
      have hv' : valOf t dec n = pyFloatStr q dec := by simp [valOf, hq]
      rw [hn']
      simp [hdone', hv']
    · simp [hdone, hn', List.mem_cons]

theorem foldlM_reprStep_glue (t : Tree) (decimals : Nat)
    (hgood : ∀ p ∈ t.parameters, goodName p = true)
    (hval : ∀ p ∈ t.parameters, (dictGet t.parValuesD0 p).isSome = true)
    (hpair : ∀ p q, p ∈ t.parameters → q ∈ t.parameters → p ≠ q →
      p.isPrefixOf q = false) :
    ∀ (ns : List (List Char)), (∀ x ∈ ns, x ∈ t.parameters) →
    ∀ (done : List (List Char)) (s0 : List Char)
      (items : List (List Char × List Char)),
      noA s0 = true →
      (∀ it ∈ items, it.1 ∈ t.parameters ∧ noA it.2 = true) →
      List.foldlM (reprStep t decimals)
        (s0 ++ glueItems (substDone t decimals done items)) ns =
        .ok (s0 ++ glueItems (substDone t decimals (ns ++ done) items)) := by
  intro ns
  induction ns with
  | nil =>
    intro _ done s0 items _ _
    rfl
  | cons n' ns' ih =>
    intro hns done s0 items hs0 hits
    have hmem : n' ∈ t.parameters := hns n' (by simp)
    obtain ⟨q, hq⟩ := Option.isSome_iff_exists.mp (hval n' hmem)
    rw [List.foldlM_cons]
    have hstep : reprStep t decimals
        (s0 ++ glueItems (substDone t decimals done items)) n' =
        .ok (pyReplace n' (pyFloatStr q decimals)
          (s0 ++ glueItems (substDone t decimals done items))) := by
      simp [reprStep, hq]
    rw [hstep]
    have hglue : pyReplace n' (pyFloatStr q decimals)
        (s0 ++ glueItems (substDone t decimals done items)) =
        s0 ++ glueItems (substOne n' (pyFloatStr q decimals)
          (substDone t decimals done items)) := by
      apply pyReplace_glue n' (pyFloatStr q decimals) (hgood n' hmem)
        (substDone t decimals done items) s0 hs0
      intro it hit
      simp only [substDone, List.mem_map] at hit
      obtain ⟨it0, hit0, hmap⟩ := hit
      obtain ⟨hpmem, hsegA⟩ := hits it0 hit0
      constructor
      · rw [← hmap]
        by_cases hdone : it0.1 ∈ done
        · simp only [hdone, if_true]
          exact Or.inl (valOf_noA t decimals it0.1)
        · simp only [hdone, if_false]
          right
          refine ⟨hgood _ hpmem, ?_⟩
          by_cases heq : it0.1 = n'
          · exact Or.inl heq
          · exact Or.inr ⟨hpair _ _ hpmem hmem heq,
              hpair _ _ hmem hpmem (fun h => heq h.symm)⟩
      · rw [← hmap]
        exact hsegA
    rw [hglue, substOne_substDone t decimals n' (hgood n' hmem) q hq]
    have := ih (fun x hx => hns x (by simp [hx])) (n' :: done) s0 items hs0 hits
    rw [show (Except.ok (s0 ++ glueItems (substDone t decimals
        (ns' ++ n' :: done) items)) : Except BMSError (List Char)) =
        .ok (s0 ++ glueItems (substDone t decimals ((n' :: ns') ++ done)
          items)) from by
      rw [substDone_congr t decimals (ns' ++ n' :: done) ((n' :: ns') ++ done)
        items (by intro x; simp [List.mem_append, List.mem_cons]; tauto)]]
      at this
    exact this

theorem glueItems_noA (items : List (List Char × List Char))
    (h : ∀ it ∈ items, noA it.1 = true ∧ noA it.2 = true) :
    noA (glueItems items) = true := by
  induction items with
  | nil => rfl
  | cons it rest ih =>
    obtain ⟨p, s⟩ := it
    obtain ⟨h1, h2⟩ := h (p, s) (by simp)
    simp only [glueItems, noA_append, Bool.and_eq_true]
    exact ⟨h1, h2, ih (fun it hit => h it (by simp [hit]))⟩

/-- C9 amended: for a fitted model whose parameter names are `'a'` followed
by digits and pairwise prefix-incomparable (true of `a0..a9`, i.e. up to ten
parameters), and whose rendering decomposes into parameter-name occurrences
separated by `'a'`-free segments, `repr(decimals)` substitutes every
parameter occurrence by the decimal rendering of its own rounded fitted
value, and the result contains no remaining parameter-name token.  (With
eleven or more parameters, `a1` is a prefix of `a10` and the sequential
`str.replace` corrupts the output — see the counterexample.) -/
theorem c9_repr_substitution_amended (st : BMSRegressor) (decimals : Nat)
    (s0 : List Char) (items : List (List Char × List Char))
    (hdecomp : st.model_.reprS = s0 ++ glueItems items)
    (hs0 : noA s0 = true)
    (hitems : ∀ it ∈ items, it.1 ∈ st.model_.parameters ∧ noA it.2 = true)
    (hgood : ∀ p ∈ st.model_.parameters, goodName p = true)
    (hval : ∀ p ∈ st.model_.parameters,
      (dictGet st.model_.parValuesD0 p).isSome = true)
    (hpair : ∀ p q, p ∈ st.model_.parameters → q ∈ st.model_.parameters →
      p ≠ q → p.isPrefixOf q = false) :
    bmsRepr st decimals =
      .ok (s0 ++ glueItems (items.map
        (fun it => (valOf st.model_ decimals it.1, it.2)))) ∧
    ∀ p ∈ st.model_.parameters,
      occursIn p (s0 ++ glueItems (items.map
        (fun it => (valOf st.model_ decimals it.1, it.2)))) = false := by
  have hmain : bmsRepr st decimals =
      .ok (s0 ++ glueItems (substDone st.model_ decimals
        (st.model_.parameters ++ []) items)) := by
    unfold bmsRepr
    rw [hdecomp]
    rw [show s0 ++ glueItems items =
        s0 ++ glueItems (substDone st.model_ decimals [] items) from by
      rw [substDone_nil]]
    exact foldlM_reprStep_glue st.model_ decimals hgood hval hpair
      st.model_.parameters (fun x hx => hx) [] s0 items hs0 hitems
  have hfinal : substDone st.model_ decimals (st.model_.parameters ++ []) items
      = items.map (fun it => (valOf st.model_ decimals it.1, it.2)) := by
    simp only [substDone]
    apply List.map_congr_left
    intro it hit
    have hm := (hitems it hit).1
    simp [hm]
  constructor
  · rw [hmain, hfinal]
  · intro p hp
    apply occursIn_eq_false_of_noA _ _ _ (hgood p hp)
    rw [noA_append]
    simp only [Bool.and_eq_true]
    refine ⟨hs0, glueItems_noA _ ?_⟩
    intro it hit
    simp only [List.mem_map] at hit
    obtain ⟨it0, hit0, hmap⟩ := hit
    rw [← hmap]
    exact ⟨valOf_noA _ _ _, (hitems it0 hit0).2⟩

/-- Witness model for C9 amended: rendering `(a0 + a1)`. -/
def goodTree : Tree :=
  { predictFn := fun _ => []
    reprS := ['('] ++ glueItems
      [((['a', '0'] : List Char), [' ', '+', ' ']),
       ((['a', '1'] : List Char), [')'])]
    parameters := [['a', '0'], ['a', '1']]
    parValuesD0 := [(['a', '0'], 3), (['a', '1'], 7)]
    latexS := [] }

/-- Witness for C9 amended at the concrete model `(a0 + a1)`. -/
theorem c9_repr_substitution_amended_witness :
    bmsRepr { initDefault with model_ := goodTree } 2 =
      .ok (['('] ++ glueItems
        ([((['a', '0'] : List Char), ([' ', '+', ' '] : List Char)),
          ((['a', '1'] : List Char), [')'])].map
          (fun it => (valOf goodTree 2 it.1, it.2)))) :=
  (c9_repr_substitution_amended { initDefault with model_ := goodTree } 2
    ['('] [((['a', '0'] : List Char), [' ', '+', ' ']),
      ((['a', '1'] : List Char), [')'])]
    rfl rfl (by decide) (by decide) (by decide)
    (by
      intro p q hp hq hne
      have hp' : p ∈ [['a', '0'], ['a', '1']] := hp
      have hq' : q ∈ [['a', '0'], ['a', '1']] := hq
      simp only [List.mem_cons, List.not_mem_nil, or_false] at hp' hq'
      rcases hp' with rfl | rfl <;> rcases hq' with rfl | rfl <;>
        first
          | exact absurd rfl hne
          | decide)).1

/-- Counterexample model for C9: the rendering is exactly the parameter
`a10`, and the parameter list also contains its prefix `a1` (as produced by
`fit` whenever `num_param ≥ 11`). -/
def badTree : Tree :=
  { predictFn := fun _ => []
    reprS := ['a', '1', '0']
    parameters := [['a', '0'], ['a', '1'], ['a', '1', '0']]
    parValuesD0 := [(['a', '0'], 1), (['a', '1'], 3), (['a', '1', '0'], 7)]
    latexS := [] }

/-- C9 counterexample: the rendering `a10` mentions only parameter names
from the model's parameter list and decomposes as one parameter occurrence,
so the claim requires `repr(2)` to produce that parameter's own rounded
value, `7.0`; the sequential `str.replace` loop instead first replaces the
prefix `a1` inside `a10`, producing `3.00`. -/
theorem c9_sequential_replace_counterexample :
    badTree.reprS =
      [] ++ glueItems [((['a', '1', '0'] : List Char), ([] : List Char))] ∧
    (['a', '1', '0'] : List Char) ∈ badTree.parameters ∧
    (['a', '1'] : List Char) ∈ badTree.parameters ∧
    valOf badTree 2 ['a', '1', '0'] = ['7', '.', '0'] ∧
    ([] : List Char) ++ glueItems
      ([((['a', '1', '0'] : List Char), ([] : List Char))].map
        (fun it => (valOf badTree 2 it.1, it.2))) = ['7', '.', '0'] ∧
    bmsRepr { initDefault with model_ := badTree } 2 =
      .ok ['3', '.', '0', '0'] ∧
    (['3', '.', '0', '0'] : List Char) ≠ ['7', '.', '0'] := by
  refine ⟨rfl, by decide, by decide, rfl, rfl, rfl, by decide⟩

end BMS
